import Mathlib

set_option maxHeartbeats 1600000

/-! Shallow embedding of `src/point2d.rs` and `src/pointcloud2d.rs`.

Coordinates are IEEE doubles, modelled as exact rationals extended with a
NaN element (`none`).  Functions that can panic in Rust are embedded as
`Option`-valued functions, `none` standing for a panic/abort. -/

/-- An f64 value: `some q` is the finite value `q`, `none` is NaN. -/
abbrev F : Type := Option ℚ

/-- Rational addition written through `mkRat`, which the kernel can
evaluate (the library addition on `ℚ` is sealed); `qadd_eq` below states
agreement with the usual addition. -/
def qadd (a b : ℚ) : ℚ := mkRat (a.num * b.den + b.num * a.den) (a.den * b.den)

/-- Rational subtraction through `mkRat`; agrees with the usual one. -/
def qsub (a b : ℚ) : ℚ := mkRat (a.num * b.den - b.num * a.den) (a.den * b.den)

/-- Rational multiplication through `mkRat`; agrees with the usual one. -/
def qmul (a b : ℚ) : ℚ := mkRat (a.num * b.num) (a.den * b.den)

/-- Rational absolute value, written so the kernel evaluates it. -/
def qabs (a : ℚ) : ℚ := if a < 0 then -a else a

theorem qadd_eq (a b : ℚ) : qadd a b = a + b := by
  rw [qadd, Rat.add_def, Rat.normalize_eq_mkRat]

theorem qsub_eq (a b : ℚ) : qsub a b = a - b := by
  rw [qsub, Rat.sub_def, Rat.normalize_eq_mkRat]

theorem qmul_eq (a b : ℚ) : qmul a b = a * b := by
  rw [qmul, Rat.mul_def, Rat.normalize_eq_mkRat]

theorem qabs_eq (a : ℚ) : qabs a = |a| := by
  rw [qabs]
  split
  · exact (abs_of_neg (by assumption)).symm
  · exact (abs_of_nonneg (not_lt.mp (by assumption))).symm

/-- `f64::EPSILON`, that is 2 ^ (-52). -/
def EPSILON : ℚ := mkRat 1 4503599627370496

namespace F

/-- f64 subtraction; NaN propagates. -/
def sub : F → F → F
  | some a, some b => some (qsub a b)
  | _, _ => none

/-- f64 addition; NaN propagates. -/
def add : F → F → F
  | some a, some b => some (qadd a b)
  | _, _ => none

/-- f64 multiplication; NaN propagates. -/
def mul : F → F → F
  | some a, some b => some (qmul a b)
  | _, _ => none

/-- `f64::abs`; NaN propagates. -/
def fabs : F → F
  | some a => some (qabs a)
  | none => none

/-- The `<` comparison on doubles: false when either side is NaN. -/
def flt : F → F → Bool
  | some a, some b => decide (a < b)
  | _, _ => false

/-- The `>` comparison on doubles: false when either side is NaN. -/
def fgt : F → F → Bool
  | some a, some b => decide (b < a)
  | _, _ => false

/-- Total comparison of two finite doubles: the value that
`f64::partial_cmp` wraps when both operands are finite. -/
def qcmp (a b : ℚ) : Ordering :=
  if a < b then Ordering.lt else if b < a then Ordering.gt else Ordering.eq

/-- `f64::partial_cmp`: `none` exactly when an operand is NaN. -/
def pcmp : F → F → Option Ordering
  | some a, some b => some (qcmp a b)
  | _, _ => none

end F

/-- `src/point2d.rs`: a 2D point with f64 components. -/
structure Point2D where
  x : F
  y : F
deriving DecidableEq, Repr, Inhabited

/-- `Point2D::squared_distance_to`. -/
def Point2D.squared_distance_to (p other : Point2D) : F :=
  let dx := F.sub p.x other.x
  let dy := F.sub p.y other.y
  F.add (F.mul dx dx) (F.mul dy dy)

/-- `src/pointcloud2d.rs`: the point cloud with its two axis indexes. -/
structure PointCloud2D where
  points : List Point2D
  positions_x : List ℕ
  positions_y : List ℕ
  sorted_x : List ℕ
  sorted_y : List ℕ
  is_sorted : Bool
deriving DecidableEq, Repr

/-- `PointCloud2D::new`. -/
def PointCloud2D.new : PointCloud2D :=
  ⟨[], [], [], [], [], true⟩

/-- `PointCloud2D::new_unsorted`. -/
def PointCloud2D.new_unsorted : PointCloud2D :=
  ⟨[], [], [], [], [], false⟩

/-- Loop of `slice::binary_search_by`, with an explicit fuel argument used
only to justify termination; the caller passes fuel exceeding the iteration
count, which shrinks `right - left` every round.  The comparator may
signal a panic (`none`, for the `expect` on a NaN comparison). -/
def bsFuel {α : Type} [Inhabited α] (s : List α) (f : α → Option Ordering) :
    ℕ → ℕ → ℕ → Option (ℕ ⊕ ℕ)
  | 0, left, _ => some (Sum.inr left)
  | fuel + 1, left, right =>
    if left < right then
      match f (s.getD (left + (right - left) / 2) default) with
      | none => none
      | some Ordering.lt => bsFuel s f fuel (left + (right - left) / 2 + 1) right
      | some Ordering.gt => bsFuel s f fuel left (left + (right - left) / 2)
      | some Ordering.eq => some (Sum.inl (left + (right - left) / 2))
    else some (Sum.inr left)

/-- `slice::binary_search_by`: `Sum.inl i` is `Ok(i)` (an equal element was
probed at index `i`), `Sum.inr i` is `Err(i)` (the insertion point). -/
def binary_search_by {α : Type} [Inhabited α] (s : List α)
    (f : α → Option Ordering) : Option (ℕ ⊕ ℕ) :=
  bsFuel s f (s.length + 1) 0 s.length

/-- `PointCloud2D::find_point_position_x`. -/
def PointCloud2D.find_point_position_x (c : PointCloud2D) (new_x : F) :
    Option (Except String ℕ) :=
  if !c.is_sorted then
    some (Except.error "Cannont find_position_x in unsorted PointCloud2D")
  else
    match binary_search_by c.sorted_x
        (fun i => F.pcmp (c.points.getD i default).x new_x) with
    | none => none
    | some (Sum.inl i) => some (Except.ok (i + 1))
    | some (Sum.inr i) => some (Except.ok i)

/-- `PointCloud2D::find_point_position_y`. -/
def PointCloud2D.find_point_position_y (c : PointCloud2D) (new_y : F) :
    Option (Except String ℕ) :=
  if !c.is_sorted then
    some (Except.error "Cannont find_position_y in unsorted PointCloud2D")
  else
    match binary_search_by c.sorted_y
        (fun i => F.pcmp (c.points.getD i default).y new_y) with
    | none => none
    | some (Sum.inl i) => some (Except.ok (i + 1))
    | some (Sum.inr i) => some (Except.ok i)

/-- `PointCloud2D::push`. -/
def PointCloud2D.push (c : PointCloud2D) (p : Point2D) : Option PointCloud2D :=
  let new_index := c.points.length
  let c0 : PointCloud2D := { c with points := c.points ++ [p] }
  if c0.is_sorted then
    match c0.find_point_position_x p.x with
    | none => none
    | some (Except.error _) => none
    | some (Except.ok index_x) =>
      let c1 : PointCloud2D := { c0 with
        positions_x :=
          (c0.positions_x.map fun e => if index_x ≤ e then e + 1 else e)
            ++ [index_x],
        sorted_x := c0.sorted_x.insertIdx index_x new_index }
      match c1.find_point_position_y p.y with
      | none => none
      | some (Except.error _) => none
      | some (Except.ok index_y) =>
        some { c1 with
          positions_y :=
            (c1.positions_y.map fun e => if index_y ≤ e then e + 1 else e)
              ++ [index_y],
          sorted_y := c1.sorted_y.insertIdx index_y new_index }
  else some c0

/-- Map a function of the position over a list of naturals. -/
def idxMapAux (f : ℕ → ℕ → ℕ) : ℕ → List ℕ → List ℕ
  | _, [] => []
  | i, a :: as => f i a :: idxMapAux f (i + 1) as

/-- Map a function of the position over a list of naturals. -/
def idxMap (f : ℕ → ℕ → ℕ) (l : List ℕ) : List ℕ :=
  idxMapAux f 0 l

/-- The in-place loop `for i in (lo+1..hi+1).rev { l[i] = l[i-1] }` followed
by `l[lo] = v`: every read happens before the slot is overwritten, so the
functional rendering reads the original list. -/
def rotSegRight (l : List ℕ) (lo hi v : ℕ) : List ℕ :=
  idxMap (fun i a =>
    if i = lo then v else if lo < i ∧ i ≤ hi then l.getD (i - 1) 0 else a) l

/-- The in-place loop `for i in lo..hi { l[i] = l[i+1] }` followed by
`l[hi] = v`; as above the loop reads only original values. -/
def rotSegLeft (l : List ℕ) (lo hi v : ℕ) : List ℕ :=
  idxMap (fun i a =>
    if i = hi then v else if lo ≤ i ∧ i < hi then l.getD (i + 1) 0 else a) l

/-- `PointCloud2D::update_point_y`.  Panics (`none`) when `point_index` is
out of range or a NaN comparison occurs in the search. -/
def PointCloud2D.update_point_y (c : PointCloud2D) (point_index : ℕ)
    (new_y : F) : Option PointCloud2D :=
  let step1 : Option PointCloud2D :=
    if c.is_sorted then
      if point_index < c.positions_y.length then
        let old_y_position := c.positions_y.getD point_index 0
        match c.find_point_position_y new_y with
        | none => none
        | some (Except.error _) => none
        | some (Except.ok found) =>
          if found < old_y_position then
            some { c with
              positions_y := c.positions_y.map fun e =>
                if e = old_y_position then found
                else if found ≤ e ∧ e < old_y_position then e + 1 else e,
              sorted_y := rotSegRight c.sorted_y found old_y_position point_index }
          else if old_y_position < found then
            let new_y_position := found - 1
            some { c with
              positions_y := c.positions_y.map fun e =>
                if e = old_y_position then new_y_position
                else if e ≤ new_y_position ∧ old_y_position < e then e - 1 else e,
              sorted_y := rotSegLeft c.sorted_y old_y_position new_y_position point_index }
          else some c
      else none
    else some c
  match step1 with
  | none => none
  | some c1 =>
    if point_index < c1.points.length then
      some { c1 with
        points := c1.points.set point_index
          ({ c1.points.getD point_index default with y := new_y }) }
    else none

/-- `PointCloud2D::update_point_x`.  Mirrors the source exactly, including
its call of `find_point_position_y` on the new x value. -/
def PointCloud2D.update_point_x (c : PointCloud2D) (point_index : ℕ)
    (new_x : F) : Option PointCloud2D :=
  let step1 : Option PointCloud2D :=
    if c.is_sorted then
      if point_index < c.positions_x.length then
        let old_x_position := c.positions_x.getD point_index 0
        match c.find_point_position_y new_x with
        | none => none
        | some (Except.error _) => none
        | some (Except.ok found) =>
          if found < old_x_position then
            some { c with
              positions_x := c.positions_x.map fun e =>
                if e = old_x_position then found
                else if found ≤ e ∧ e < old_x_position then e + 1 else e,
              sorted_x := rotSegRight c.sorted_x found old_x_position point_index }
          else if old_x_position < found then
            let new_x_position := found - 1
            some { c with
              positions_x := c.positions_x.map fun e =>
                if e = old_x_position then new_x_position
                else if e ≤ new_x_position ∧ old_x_position < e then e - 1 else e,
              sorted_x := rotSegLeft c.sorted_x old_x_position new_x_position point_index }
          else some c
      else none
    else some c
  match step1 with
  | none => none
  | some c1 =>
    if point_index < c1.points.length then
      some { c1 with
        points := c1.points.set point_index
          ({ c1.points.getD point_index default with x := new_x }) }
    else none

/-- `PointCloud2D::update_point`. -/
def PointCloud2D.update_point (c : PointCloud2D) (point_index : ℕ)
    (new_p : Point2D) : Option PointCloud2D :=
  if point_index < c.points.length then
    let px := (c.points.getD point_index default).x
    let py := (c.points.getD point_index default).y
    let step1 :=
      if F.fgt (F.fabs (F.sub px new_p.x)) (some EPSILON) then
        c.update_point_x point_index new_p.x
      else some c
    match step1 with
    | none => none
    | some c1 =>
      if F.fgt (F.fabs (F.sub py new_p.y)) (some EPSILON) then
        c1.update_point_y point_index new_p.y
      else some c1
  else none

/-- `PointCloud2D::translate_point`. -/
def PointCloud2D.translate_point (c : PointCloud2D) (point_index : ℕ)
    (x_movement y_movement : F) : Option PointCloud2D :=
  if point_index < c.points.length then
    let px := (c.points.getD point_index default).x
    let py := (c.points.getD point_index default).y
    c.update_point point_index ⟨F.add px x_movement, F.add py y_movement⟩
  else none

/-- The design constant `MAX_DISTANCE` of `test_world_point`. -/
def MAX_DISTANCE : ℚ := mkRat 1 4

/-- Body of the candidate-scanning loop of `test_world_point`: look up the
candidate's point, compute the true squared distance, and keep it when it
strictly beats the accumulator. -/
def scanStep (c : PointCloud2D) (p : Point2D) (sorted : List ℕ)
    (acc : Option ℕ × F) (other_position : ℕ) : Option ℕ × F :=
  let other_index := sorted.getD other_position 0
  let other_p := c.points.getD other_index default
  let sq_d := p.squared_distance_to other_p
  if F.flt sq_d acc.2 then (some other_index, sq_d) else acc

/-- `PointCloud2D::test_world_point`.  The outer `Option` is the panic
(`unwrap` of an `Err`, or a NaN comparison); the inner one is the returned
`Option<usize>`.  The `usize` subtractions computing the window widths are
truncated (they cannot underflow in the states the claims quantify over). -/
def PointCloud2D.test_world_point (c : PointCloud2D) (p : Point2D) :
    Option (Option ℕ) :=
  let maxd : F := some MAX_DISTANCE
  let maxdsq : F := F.mul maxd maxd
  match c.find_point_position_x (F.sub p.x maxd) with
  | none => none
  | some (Except.error _) => none
  | some (Except.ok min_index_x) =>
    match c.find_point_position_x (F.add p.x maxd) with
    | none => none
    | some (Except.error _) => none
    | some (Except.ok max_index_x) =>
      match c.find_point_position_y (F.sub p.y maxd) with
      | none => none
      | some (Except.error _) => none
      | some (Except.ok min_index_y) =>
        match c.find_point_position_y (F.add p.y maxd) with
        | none => none
        | some (Except.error _) => none
        | some (Except.ok max_index_y) =>
          let d_index_x := max_index_x - min_index_x
          let d_index_y := max_index_y - min_index_y
          let lo := if d_index_x ≤ d_index_y then min_index_x else min_index_y
          let hi := if d_index_x ≤ d_index_y then max_index_x else max_index_y
          let sorted := if d_index_x ≤ d_index_y then c.sorted_x else c.sorted_y
          let res := (List.range' lo (hi - lo)).foldl
            (scanStep c p sorted) ((none : Option ℕ), maxdsq)
          some res.1

/-- `PointCloud2D::check_consistency` as a boolean: `false` exactly when
one of its assertions would panic in a debug build. -/
def PointCloud2D.check_consistency (c : PointCloud2D) : Bool :=
  if !c.is_sorted then true
  else
    (c.points.length == c.positions_x.length)
    && (c.positions_x.length == c.positions_y.length)
    && (c.positions_y.length == c.sorted_x.length)
    && (c.sorted_x.length == c.sorted_y.length)
    && (List.range c.points.length).all (fun i =>
        c.positions_x.contains i && c.positions_y.contains i
          && c.sorted_x.contains i && c.sorted_y.contains i)
    && (List.range c.sorted_x.length).all (fun i =>
        let index := c.sorted_x.getD i 0
        let current := c.points.getD index default
        (c.positions_x.getD index 0 == i)
          && (if 1 ≤ i then
                !F.fgt (c.points.getD (c.sorted_x.getD (i - 1) 0) default).x current.x
              else true)
          && (if i + 1 < c.sorted_x.length then
                !F.flt (c.points.getD (c.sorted_x.getD (i + 1) 0) default).x current.x
              else true))
    && (List.range c.sorted_y.length).all (fun i =>
        let index := c.sorted_y.getD i 0
        let current := c.points.getD index default
        (c.positions_y.getD index 0 == i)
          && (if 1 ≤ i then
                !F.fgt (c.points.getD (c.sorted_y.getD (i - 1) 0) default).y current.y
              else true)
          && (if i + 1 < c.sorted_y.length then
                !F.flt (c.points.getD (c.sorted_y.getD (i + 1) 0) default).y current.y
              else true))

/-- The x value stored at rank `r` of the X order index (junk 0 for NaN). -/
def xval (c : PointCloud2D) (r : ℕ) : ℚ :=
  ((c.points.getD (c.sorted_x.getD r 0) default).x).getD 0

/-- The y value stored at rank `r` of the Y order index (junk 0 for NaN). -/
def yval (c : PointCloud2D) (r : ℕ) : ℚ :=
  ((c.points.getD (c.sorted_y.getD r 0) default).y).getD 0

/-- The squared radius constant of `test_world_point`. -/
def MAX_DISTANCE_SQ : ℚ := qmul MAX_DISTANCE MAX_DISTANCE

/-- The exact squared distance from the finite query point `(qx, qy)` to the
stored point with stable index `i`, written with the kernel-computable
rational operations. -/
def sqQ (c : PointCloud2D) (qx qy : ℚ) (i : ℕ) : ℚ :=
  qadd
    (qmul (qsub qx ((c.points.getD i default).x.getD 0))
      (qsub qx ((c.points.getD i default).x.getD 0)))
    (qmul (qsub qy ((c.points.getD i default).y.getD 0))
      (qsub qy ((c.points.getD i default).y.getD 0)))

/-- All stored coordinates are finite (no NaN). -/
def AllFinite (c : PointCloud2D) : Prop :=
  ∀ i, i < c.points.length →
    (c.points.getD i default).x ≠ none ∧ (c.points.getD i default).y ≠ none

/-- Invariants 1 to 4 of the structure (spec section 3), for a cloud in
sorted mode: length coherence, both `sorted` lists are permutations of the
stable indices, both are non-decreasing in the axis value, and each
`positions` list is inverse to the matching `sorted` list. -/
structure Invariants (c : PointCloud2D) : Prop where
  len_px : c.positions_x.length = c.points.length
  len_py : c.positions_y.length = c.points.length
  len_sx : c.sorted_x.length = c.points.length
  len_sy : c.sorted_y.length = c.points.length
  mem_sx : ∀ i, i < c.points.length → i ∈ c.sorted_x
  mem_sy : ∀ i, i < c.points.length → i ∈ c.sorted_y
  range_sx : ∀ r, r < c.sorted_x.length → c.sorted_x.getD r 0 < c.points.length
  range_sy : ∀ r, r < c.sorted_y.length → c.sorted_y.getD r 0 < c.points.length
  mono_x : ∀ r, r < c.sorted_x.length → r + 1 < c.sorted_x.length →
    xval c r ≤ xval c (r + 1)
  mono_y : ∀ r, r < c.sorted_y.length → r + 1 < c.sorted_y.length →
    yval c r ≤ yval c (r + 1)
  inv_x : ∀ i, i < c.points.length →
    c.positions_x.getD i 0 < c.sorted_x.length ∧
      c.sorted_x.getD (c.positions_x.getD i 0) 0 = i
  inv_y : ∀ i, i < c.points.length →
    c.positions_y.getD i 0 < c.sorted_y.length ∧
      c.sorted_y.getD (c.positions_y.getD i 0) 0 = i

/-- A one-point sorted cloud holding `(0, 0)`. -/
def sample1 : PointCloud2D :=
  ⟨[⟨some 0, some 0⟩], [0], [0], [0], [0], true⟩

/-- The three collinear points `A(0,0), B(1,0), C(2,0)` with identity
permutations on both axes. -/
def sample3 : PointCloud2D :=
  ⟨[⟨some 0, some 0⟩, ⟨some 1, some 0⟩, ⟨some 2, some 0⟩],
    [0, 1, 2], [0, 1, 2], [0, 1, 2], [0, 1, 2], true⟩

/-- Loop invariant of the candidate scan of `test_world_point`: the
accumulator holds a finite threshold below the initial squared radius, a
`none` best means every scanned candidate is at least the radius away,
and a `some` best is a scanned candidate realising the threshold, which
is minimal among all scanned candidates. -/
abbrev ScanInv (c : PointCloud2D) (qx qy : ℚ) (S scanned : List ℕ)
    (acc : Option ℕ × F) : Prop :=
  ∃ m, acc.2 = some m ∧ m ≤ MAX_DISTANCE_SQ ∧
    (acc.1 = none → m = MAX_DISTANCE_SQ ∧
      ∀ r ∈ scanned, MAX_DISTANCE_SQ ≤ sqQ c qx qy (S.getD r 0)) ∧
    (∀ i, acc.1 = some i → i < c.points.length ∧ sqQ c qx qy i = m ∧
      m < MAX_DISTANCE_SQ ∧ (∃ r ∈ scanned, S.getD r 0 = i) ∧
      ∀ r ∈ scanned, m ≤ sqQ c qx qy (S.getD r 0))

/-- Three coincident points at the origin, identity permutations. -/
def sampleEq3 : PointCloud2D :=
  ⟨[⟨some 0, some 0⟩, ⟨some 0, some 0⟩, ⟨some 0, some 0⟩],
    [0, 1, 2], [0, 1, 2], [0, 1, 2], [0, 1, 2], true⟩

example : PointCloud2D.new.find_point_position_x (some 1) = some (Except.ok 0) := rfl

example :
    (⟨[⟨some 0, some 0⟩], [0], [0], [0], [0], true⟩ :
      PointCloud2D).find_point_position_x (some (-1)) = some (Except.ok 0) := rfl

example :
    (⟨[⟨some 0, some 0⟩], [0], [0], [0], [0], true⟩ :
      PointCloud2D).find_point_position_x (some 1) = some (Except.ok 1) := rfl

example :
    (⟨[⟨some 0, some 0⟩], [0], [0], [0], [0], true⟩ :
      PointCloud2D).find_point_position_x (some 0) = some (Except.ok 1) := rfl

example :
    (⟨[⟨some 0, some 0⟩, ⟨some 1, some 0⟩], [0, 1], [0, 1], [0, 1], [0, 1], true⟩ :
      PointCloud2D).find_point_position_x (some (mkRat 1 2)) = some (Except.ok 1) := rfl

example :
    (⟨[⟨some 0, some 0⟩, ⟨some 1, some 0⟩], [0, 1], [0, 1], [0, 1], [0, 1], true⟩ :
      PointCloud2D).find_point_position_x (some 1) = some (Except.ok 2) := rfl

example :
    PointCloud2D.new.push ⟨some 0, some 0⟩ =
      some ⟨[⟨some 0, some 0⟩], [0], [0], [0], [0], true⟩ := by decide

example :
    (⟨[⟨some 0, some 0⟩], [0], [0], [0], [0], true⟩ :
        PointCloud2D).push ⟨some (-1), some 0⟩ =
      some ⟨[⟨some 0, some 0⟩, ⟨some (-1), some 0⟩],
        [1, 0], [0, 1], [1, 0], [0, 1], true⟩ := by decide

theorem F.pcmp_right_none (a : F) : F.pcmp a none = none := by
  cases a <;> rfl

theorem F.fgt_sub_self_eps (a : F) :
    F.fgt (F.fabs (F.sub a a)) (some EPSILON) = false := by
  cases a with
  | none => rfl
  | some q =>
    show decide (EPSILON < qabs (qsub q q)) = false
    rw [qsub_eq, sub_self, qabs_eq, abs_zero]
    decide

/-- C7: starting from the sorted cloud holding `A(0,0), B(1,0), C(2,0)`
with identity permutations, `update_point 0 (12,0)` yields
`sorted_x = [1,2,0]`, `positions_x = [2,0,1]`, and leaves the Y arrays at
the identity (the Y reposition is skipped since the Y value is unchanged). -/
theorem C7_move_collinear_point :
    sample3.update_point 0 ⟨some 12, some 0⟩ =
      some ⟨[⟨some 12, some 0⟩, ⟨some 1, some 0⟩, ⟨some 2, some 0⟩],
        [2, 0, 1], [0, 1, 2], [1, 2, 0], [0, 1, 2], true⟩ := by
  decide

/-- C8: updating a point to its current value leaves the cloud, and in
particular all four permutation arrays, unchanged. -/
theorem C8_update_point_same_value_noop (c : PointCloud2D) (i : ℕ)
    (hi : i < c.points.length) :
    c.update_point i (c.points.getD i default) = some c := by
  simp [PointCloud2D.update_point, hi, F.fgt_sub_self_eps]

theorem C8_update_point_same_value_noop_witness :
    (0 : ℕ) < sample1.points.length ∧
      sample1.update_point 0 (sample1.points.getD 0 default) = some sample1 :=
  ⟨by decide, C8_update_point_same_value_noop sample1 0 (by decide)⟩

/-- C9 (counterexample): referencing the never-assigned stable index 0 of
an empty cloud through `update_point` panics (modelled `none`) instead of
returning a recoverable failure value. -/
theorem C9_oob_panics_cex :
    PointCloud2D.new.update_point 0 ⟨some 1, some 1⟩ = none := by
  decide

/-- C9 (amended): an out-of-range stable index passed to `update_point`
or `translate_point` makes the call panic (index out of bounds), a fatal
abort rather than a recoverable error value. -/
theorem C9_amended_oob_panics (c : PointCloud2D) (i : ℕ) (p : Point2D)
    (dx dy : F) (h : c.points.length ≤ i) :
    c.update_point i p = none ∧ c.translate_point i dx dy = none := by
  constructor <;>
    simp [PointCloud2D.update_point, PointCloud2D.translate_point,
      Nat.not_lt.mpr h]

theorem C9_amended_oob_panics_witness :
    PointCloud2D.new.points.length ≤ 0 ∧
      PointCloud2D.new.update_point 0 ⟨some 1, some 1⟩ = none ∧
      PointCloud2D.new.translate_point 0 (some 1) (some 1) = none :=
  ⟨by decide,
    C9_amended_oob_panics PointCloud2D.new 0 ⟨some 1, some 1⟩
      (some 1) (some 1) (by decide)⟩

/-- C4 (counterexample): on a cloud built in unsorted mode the
nearest-point query does not return a recoverable failure value: it
unwraps the inner error and panics (modelled as `none`). -/
theorem C4_unsorted_query_panics_cex :
    PointCloud2D.new_unsorted.test_world_point ⟨some 0, some 0⟩ = none := by
  decide

/-- C4 (amended): in unsorted mode the insertion-rank searches do return a
recoverable `Err` value, but `test_world_point` unwraps that value and
panics instead of surfacing it to the caller. -/
theorem C4_amended_unsorted_behaviour (c : PointCloud2D) (v : F)
    (p : Point2D) (h : c.is_sorted = false) :
    (∃ e, c.find_point_position_x v = some (Except.error e)) ∧
    (∃ e, c.find_point_position_y v = some (Except.error e)) ∧
    c.test_world_point p = none := by
  refine ⟨⟨"Cannont find_position_x in unsorted PointCloud2D", ?_⟩,
    ⟨"Cannont find_position_y in unsorted PointCloud2D", ?_⟩, ?_⟩ <;>
    simp [PointCloud2D.find_point_position_x,
      PointCloud2D.find_point_position_y, PointCloud2D.test_world_point, h]

theorem C4_amended_unsorted_behaviour_witness :
    PointCloud2D.new_unsorted.is_sorted = false ∧
      ((∃ e, PointCloud2D.new_unsorted.find_point_position_x (some 0) =
          some (Except.error e)) ∧
        (∃ e, PointCloud2D.new_unsorted.find_point_position_y (some 0) =
          some (Except.error e)) ∧
        PointCloud2D.new_unsorted.test_world_point ⟨some 0, some 0⟩ = none) :=
  ⟨rfl, C4_amended_unsorted_behaviour PointCloud2D.new_unsorted (some 0)
    ⟨some 0, some 0⟩ rfl⟩

/-- C1 (code bug): pushing `(0,0)` and `(1,5)` and then moving point 0 to
`(2,0)` leaves `sorted_x = [0,1]` over x values `[2,1]`: the cloud fails
its own `check_consistency` assertions and the non-decreasing X invariant,
because `update_point_x` searches the new rank with
`find_point_position_y`. -/
theorem C1_update_point_x_corrupts_order :
    ∃ c₁ c₂ c₃ : PointCloud2D,
      PointCloud2D.new.push ⟨some 0, some 0⟩ = some c₁ ∧
      c₁.push ⟨some 1, some 5⟩ = some c₂ ∧
      c₂.update_point 0 ⟨some 2, some 0⟩ = some c₃ ∧
      c₃.check_consistency = false ∧
      ¬ (xval c₃ 0 ≤ xval c₃ 1) := by
  refine ⟨⟨[⟨some 0, some 0⟩], [0], [0], [0], [0], true⟩,
    ⟨[⟨some 0, some 0⟩, ⟨some 1, some 5⟩], [0, 1], [0, 1], [0, 1], [0, 1], true⟩,
    ⟨[⟨some 2, some 0⟩, ⟨some 1, some 5⟩], [0, 1], [0, 1], [0, 1], [0, 1], true⟩,
    by decide, by decide, by decide, by decide, by decide⟩

theorem getD_set_self {α : Type} (l : List α) (i : ℕ) (a d : α)
    (h : i < l.length) : (l.set i a).getD i d = a := by
  induction l generalizing i with
  | nil => simp at h
  | cons b bs ih =>
    cases i with
    | zero => rfl
    | succ n => exact ih n (by simpa using h)

theorem find_x_nan (c : PointCloud2D) (hs : c.is_sorted = true)
    (hne : c.sorted_x ≠ []) : c.find_point_position_x none = none := by
  have hlen : 0 < c.sorted_x.length := List.length_pos.mpr hne
  have hbs : binary_search_by c.sorted_x
      (fun i => F.pcmp (c.points.getD i default).x none) = none := by
    rw [binary_search_by]
    simp only [bsFuel, if_pos hlen, F.pcmp_right_none]
  simp only [List.getD_eq_getElem?_getD] at hbs
  simp [PointCloud2D.find_point_position_x, hs, hbs]

theorem find_y_nan (c : PointCloud2D) (hs : c.is_sorted = true)
    (hne : c.sorted_y ≠ []) : c.find_point_position_y none = none := by
  have hlen : 0 < c.sorted_y.length := List.length_pos.mpr hne
  have hbs : binary_search_by c.sorted_y
      (fun i => F.pcmp (c.points.getD i default).y none) = none := by
    rw [binary_search_by]
    simp only [bsFuel, if_pos hlen, F.pcmp_right_none]
  simp only [List.getD_eq_getElem?_getD] at hbs
  simp [PointCloud2D.find_point_position_y, hs, hbs]

/-- C5 (counterexample): pushing a NaN point onto an *empty* sorted cloud
does not panic: the binary search performs no comparison, and the NaN
point is silently inserted. -/
theorem C5_empty_push_nan_succeeds_cex :
    PointCloud2D.new.push ⟨none, some 0⟩ =
      some ⟨[⟨none, some 0⟩], [0], [0], [0], [0], true⟩ := by
  decide

/-- C5 (amended): a NaN coordinate makes a mutation panic exactly when the
axis search actually compares it against some stored point: on a sorted
nonempty cloud, `push` of a NaN-x point, `update_point_x` with NaN and
`update_point_y` with NaN all panic; the empty-cloud push does not. -/
theorem C5_amended_nan_mutations (c : PointCloud2D) (b : F) (i : ℕ)
    (hs : c.is_sorted = true) (hx : c.sorted_x ≠ []) (hy : c.sorted_y ≠ [])
    (hix : i < c.positions_x.length) (hiy : i < c.positions_y.length) :
    c.push ⟨none, b⟩ = none ∧
    c.update_point_x i none = none ∧
    c.update_point_y i none = none := by
  refine ⟨?_, ?_, ?_⟩
  · have h1 : (⟨c.points ++ [⟨none, b⟩], c.positions_x, c.positions_y,
        c.sorted_x, c.sorted_y, true⟩ :
          PointCloud2D).find_point_position_x none = none :=
      find_x_nan _ rfl hx
    simp [PointCloud2D.push, hs, h1]
  · simp [PointCloud2D.update_point_x, hs, hix, find_y_nan c hs hy]
  · simp [PointCloud2D.update_point_y, hs, hiy, find_y_nan c hs hy]

theorem C5_amended_nan_mutations_witness :
    sample1.is_sorted = true ∧ sample1.sorted_x ≠ [] ∧ sample1.sorted_y ≠ [] ∧
    0 < sample1.positions_x.length ∧ 0 < sample1.positions_y.length ∧
    (sample1.push ⟨none, some 0⟩ = none ∧
      sample1.update_point_x 0 none = none ∧
      sample1.update_point_y 0 none = none) :=
  ⟨rfl, by decide, by decide, by decide, by decide,
    C5_amended_nan_mutations sample1 (some 0) 0 rfl (by decide) (by decide)
      (by decide) (by decide)⟩

/-- C6 (counterexample): moving the point `(0,0)` to `(2 ^ (-60), 0)` is a
change smaller than `f64::EPSILON` on each axis, so `update_point` returns
with the stored point untouched: the new coordinates are not written. -/
theorem C6_tiny_change_not_written_cex :
    sample1.update_point 0 ⟨some (mkRat 1 1152921504606846976), some 0⟩ =
        some sample1 ∧
      sample1.points.getD 0 default ≠
        ⟨some (mkRat 1 1152921504606846976), some 0⟩ := by
  constructor
  · decide
  · decide

theorem update_point_x_points_eq (c c₂ : PointCloud2D) (i : ℕ) (v : F)
    (h : c.update_point_x i v = some c₂) :
    c₂.points = c.points.set i ({ c.points.getD i default with x := v }) := by
  simp only [PointCloud2D.update_point_x] at h
  split at h
  · exact Option.noConfusion h
  · rename_i c1 heq
    split at h
    · rw [Option.some.injEq] at h
      subst h
      have hp : c1.points = c.points := by
        repeat' split at heq
        all_goals try exact Option.noConfusion heq
        all_goals rw [Option.some.injEq] at heq
        all_goals rw [← heq]
      show c1.points.set i _ = _
      rw [hp]
    · exact Option.noConfusion h

theorem update_point_y_points_eq (c c₂ : PointCloud2D) (i : ℕ) (v : F)
    (h : c.update_point_y i v = some c₂) :
    c₂.points = c.points.set i ({ c.points.getD i default with y := v }) := by
  simp only [PointCloud2D.update_point_y] at h
  split at h
  · exact Option.noConfusion h
  · rename_i c1 heq
    split at h
    · rw [Option.some.injEq] at h
      subst h
      have hp : c1.points = c.points := by
        repeat' split at heq
        all_goals try exact Option.noConfusion heq
        all_goals rw [Option.some.injEq] at heq
        all_goals rw [← heq]
      show c1.points.set i _ = _
      rw [hp]
    · exact Option.noConfusion h

/-- C6 (amended): after a successful `update_point(i, new_p)` the stored
point holds, on each axis separately, the new coordinate when it differs
from the old one by more than `f64::EPSILON`, and the *old* coordinate
otherwise; coordinates whose change is at most EPSILON are not written. -/
theorem C6_amended_update_point_writes_changed_axes
    (c c₂ : PointCloud2D) (i : ℕ) (new_p : Point2D)
    (hi : i < c.points.length)
    (h : c.update_point i new_p = some c₂) :
    c₂.points.getD i default =
      ⟨if F.fgt (F.fabs (F.sub (c.points.getD i default).x new_p.x))
            (some EPSILON) then new_p.x
        else (c.points.getD i default).x,
        if F.fgt (F.fabs (F.sub (c.points.getD i default).y new_p.y))
            (some EPSILON) then new_p.y
        else (c.points.getD i default).y⟩ := by
  simp only [PointCloud2D.update_point, if_pos hi] at h
  split at h
  · exact Option.noConfusion h
  · rename_i c1 heq
    split at heq
    · rename_i hcx
      have h1 := update_point_x_points_eq c c1 i new_p.x heq
      have hlen1 : i < c1.points.length := by
        rw [h1, List.length_set]; exact hi
      rw [if_pos hcx]
      split at h
      · rename_i hcy
        rw [if_pos hcy]
        have h2 := update_point_y_points_eq c1 c₂ i new_p.y h
        rw [h2, getD_set_self _ _ _ _ hlen1, h1, getD_set_self _ _ _ _ hi]
      · rename_i hcy
        rw [if_neg hcy]
        rw [Option.some.injEq] at h
        subst h
        rw [h1, getD_set_self _ _ _ _ hi]
    · rename_i hcx
      rw [if_neg hcx]
      rw [Option.some.injEq] at heq
      subst heq
      split at h
      · rename_i hcy
        rw [if_pos hcy]
        have h2 := update_point_y_points_eq _ c₂ i new_p.y h
        rw [h2, getD_set_self _ _ _ _ hi]
      · rename_i hcy
        rw [if_neg hcy]
        rw [Option.some.injEq] at h
        subst h
        rfl

theorem C6_amended_update_point_writes_changed_axes_witness :
    0 < sample1.points.length ∧
    sample1.update_point 0 ⟨some 1, some 1⟩ =
      some (⟨[⟨some 1, some 1⟩], [0], [0], [0], [0], true⟩ : PointCloud2D) ∧
    (⟨[⟨some 1, some 1⟩], [0], [0], [0], [0], true⟩ :
        PointCloud2D).points.getD 0 default =
      ⟨if F.fgt (F.fabs (F.sub (sample1.points.getD 0 default).x (some 1)))
            (some EPSILON) then some 1
        else (sample1.points.getD 0 default).x,
        if F.fgt (F.fabs (F.sub (sample1.points.getD 0 default).y (some 1)))
            (some EPSILON) then some 1
        else (sample1.points.getD 0 default).y⟩ :=
  ⟨by decide, by decide,
    C6_amended_update_point_writes_changed_axes sample1
      ⟨[⟨some 1, some 1⟩], [0], [0], [0], [0], true⟩ 0 ⟨some 1, some 1⟩
      (by decide) (by decide)⟩

theorem qcmp_lt_of {a b : ℚ} (h : a < b) : F.qcmp a b = Ordering.lt := by
  unfold F.qcmp
  rw [if_pos h]

theorem qcmp_gt_of {a b : ℚ} (h : b < a) : F.qcmp a b = Ordering.gt := by
  unfold F.qcmp
  rw [if_neg (lt_asymm h), if_pos h]

theorem qcmp_eq_of {a b : ℚ} (h : a = b) : F.qcmp a b = Ordering.eq := by
  unfold F.qcmp
  rw [if_neg (by simp [h]), if_neg (by simp [h])]

/-- Partition property of the embedded binary search: on a rank-monotone
key, the search succeeds and its answer splits the ranks into a prefix
with keys at most `v` and a suffix with keys at least `v`; an `inl`
answer pinpoints a rank whose key equals `v`. -/
theorem bsFuel_spec {α : Type} [Inhabited α] (s : List α)
    (f : α → Option Ordering) (key : ℕ → ℚ) (v : ℚ)
    (hf : ∀ r, r < s.length → f (s.getD r default) = some (F.qcmp (key r) v))
    (hmono : ∀ r₁ r₂, r₁ ≤ r₂ → r₂ < s.length → key r₁ ≤ key r₂) :
    ∀ fuel left right, left ≤ right → right ≤ s.length →
      right - left < fuel →
      (∀ r, r < left → key r < v) →
      (∀ r, right ≤ r → r < s.length → v < key r) →
      (∃ i, bsFuel s f fuel left right = some (Sum.inl i) ∧
        i < s.length ∧ key i = v) ∨
      (∃ i, bsFuel s f fuel left right = some (Sum.inr i) ∧ i ≤ right ∧
        (∀ r, r < i → key r < v) ∧
        (∀ r, i ≤ r → r < s.length → v < key r)) := by
  intro fuel
  induction fuel with
  | zero =>
    intro left right h1 h2 h3 _ _
    omega
  | succ fuel ih =>
    intro left right hlr hrs hfl hlo hhi
    rw [bsFuel]
    by_cases hx : left < right
    · rw [if_pos hx]
      have hmidlt : left + (right - left) / 2 < right := by omega
      have hmidlen : left + (right - left) / 2 < s.length :=
        lt_of_lt_of_le hmidlt hrs
      rw [hf _ hmidlen]
      rcases lt_trichotomy (key (left + (right - left) / 2)) v with hkv | hkv | hkv
      · rw [qcmp_lt_of hkv]
        exact ih (left + (right - left) / 2 + 1) right (by omega) hrs (by omega)
          (fun r hr => lt_of_le_of_lt (hmono r _ (by omega) hmidlen) hkv) hhi
      · rw [qcmp_eq_of hkv]
        exact Or.inl ⟨_, rfl, hmidlen, hkv⟩
      · rw [qcmp_gt_of hkv]
        rcases ih left (left + (right - left) / 2) (by omega)
            (le_of_lt hmidlen) (by omega) hlo
            (fun r hr hrlen => lt_of_lt_of_le hkv (hmono _ r hr hrlen)) with
          ⟨i, hbs, hilen, hkey⟩ | ⟨i, hbs, hile, hlo2, hhi2⟩
        · exact Or.inl ⟨i, hbs, hilen, hkey⟩
        · exact Or.inr ⟨i, hbs, le_trans hile (le_of_lt hmidlt), hlo2, hhi2⟩
    · rw [if_neg hx]
      have hleft : left = right := by omega
      exact Or.inr ⟨left, rfl, le_of_eq hleft, hlo,
        fun r hr hrlen => hhi r (by omega) hrlen⟩

theorem find_x_eq_inl (c : PointCloud2D) (v : F) (i : ℕ)
    (hs : c.is_sorted = true)
    (hbs : binary_search_by c.sorted_x
      (fun i => F.pcmp (c.points.getD i default).x v) = some (Sum.inl i)) :
    c.find_point_position_x v = some (Except.ok (i + 1)) := by
  unfold PointCloud2D.find_point_position_x
  rw [hs, Bool.not_true, if_neg Bool.false_ne_true, hbs]

theorem find_x_eq_inr (c : PointCloud2D) (v : F) (i : ℕ)
    (hs : c.is_sorted = true)
    (hbs : binary_search_by c.sorted_x
      (fun i => F.pcmp (c.points.getD i default).x v) = some (Sum.inr i)) :
    c.find_point_position_x v = some (Except.ok i) := by
  unfold PointCloud2D.find_point_position_x
  rw [hs, Bool.not_true, if_neg Bool.false_ne_true, hbs]

theorem find_y_eq_inl (c : PointCloud2D) (v : F) (i : ℕ)
    (hs : c.is_sorted = true)
    (hbs : binary_search_by c.sorted_y
      (fun i => F.pcmp (c.points.getD i default).y v) = some (Sum.inl i)) :
    c.find_point_position_y v = some (Except.ok (i + 1)) := by
  unfold PointCloud2D.find_point_position_y
  rw [hs, Bool.not_true, if_neg Bool.false_ne_true, hbs]

theorem find_y_eq_inr (c : PointCloud2D) (v : F) (i : ℕ)
    (hs : c.is_sorted = true)
    (hbs : binary_search_by c.sorted_y
      (fun i => F.pcmp (c.points.getD i default).y v) = some (Sum.inr i)) :
    c.find_point_position_y v = some (Except.ok i) := by
  unfold PointCloud2D.find_point_position_y
  rw [hs, Bool.not_true, if_neg Bool.false_ne_true, hbs]

theorem finite_x_of (c : PointCloud2D) (hinv : Invariants c)
    (hfin : AllFinite c) (r : ℕ) (hr : r < c.sorted_x.length) :
    (c.points.getD (c.sorted_x.getD r 0) default).x = some (xval c r) := by
  have h1 := hinv.range_sx r hr
  have h2 := (hfin _ h1).1
  cases hx : (c.points.getD (c.sorted_x.getD r 0) default).x with
  | none => exact absurd hx h2
  | some q => rw [xval, hx]; rfl

theorem finite_y_of (c : PointCloud2D) (hinv : Invariants c)
    (hfin : AllFinite c) (r : ℕ) (hr : r < c.sorted_y.length) :
    (c.points.getD (c.sorted_y.getD r 0) default).y = some (yval c r) := by
  have h1 := hinv.range_sy r hr
  have h2 := (hfin _ h1).2
  cases hy : (c.points.getD (c.sorted_y.getD r 0) default).y with
  | none => exact absurd hy h2
  | some q => rw [yval, hy]; rfl

theorem mono_of_adjacent (key : ℕ → ℚ) (len : ℕ)
    (h : ∀ r, r + 1 < len → key r ≤ key (r + 1)) :
    ∀ r₁ r₂, r₁ ≤ r₂ → r₂ < len → key r₁ ≤ key r₂ := by
  intro r₁ r₂ h12 h2
  obtain ⟨d, rfl⟩ := Nat.exists_eq_add_of_le h12
  clear h12
  revert h2
  induction d with
  | zero => intro h2; exact le_of_eq (by rw [Nat.add_zero])
  | succ n ihn =>
    intro h2
    exact le_trans (ihn (by omega)) (h (r₁ + n) (by omega))

/-- The insertion-rank search on the X axis partitions the ranks. -/
theorem find_x_spec (c : PointCloud2D) (v : ℚ)
    (hs : c.is_sorted = true) (hinv : Invariants c) (hfin : AllFinite c) :
    ∃ j, c.find_point_position_x (some v) = some (Except.ok j) ∧
      j ≤ c.sorted_x.length ∧
      (∀ r, r < j → xval c r ≤ v) ∧
      (∀ r, j ≤ r → r < c.sorted_x.length → v ≤ xval c r) := by
  have hmono := mono_of_adjacent (xval c) c.sorted_x.length
    (fun r hr => hinv.mono_x r (by omega) hr)
  have hf : ∀ r, r < c.sorted_x.length →
      (fun i => F.pcmp (c.points.getD i default).x (some v))
        (c.sorted_x.getD r default) = some (F.qcmp (xval c r) v) := by
    intro r hr
    show F.pcmp (c.points.getD (c.sorted_x.getD r 0) default).x (some v) = _
    rw [finite_x_of c hinv hfin r hr]
    rfl
  rcases bsFuel_spec c.sorted_x
      (fun i => F.pcmp (c.points.getD i default).x (some v)) (xval c) v hf hmono
      (c.sorted_x.length + 1) 0 c.sorted_x.length (Nat.zero_le _) le_rfl
      (by omega) (fun r hr => absurd hr (by omega))
      (fun r hr hrlen => absurd (lt_of_le_of_lt hr hrlen) (lt_irrefl _)) with
    ⟨i, hbs, hilen, hkey⟩ | ⟨i, hbs, hile, hlo2, hhi2⟩
  · refine ⟨i + 1, find_x_eq_inl c (some v) i hs hbs, by omega, ?_, ?_⟩
    · intro r hr
      calc xval c r ≤ xval c i := hmono r i (by omega) hilen
        _ = v := hkey
    · intro r hr hrlen
      calc v = xval c i := hkey.symm
        _ ≤ xval c r := hmono i r (by omega) hrlen
  · exact ⟨i, find_x_eq_inr c (some v) i hs hbs, hile,
      fun r hr => le_of_lt (hlo2 r hr),
      fun r hr hrlen => le_of_lt (hhi2 r hr hrlen)⟩

/-- The insertion-rank search on the Y axis partitions the ranks. -/
theorem find_y_spec (c : PointCloud2D) (v : ℚ)
    (hs : c.is_sorted = true) (hinv : Invariants c) (hfin : AllFinite c) :
    ∃ j, c.find_point_position_y (some v) = some (Except.ok j) ∧
      j ≤ c.sorted_y.length ∧
      (∀ r, r < j → yval c r ≤ v) ∧
      (∀ r, j ≤ r → r < c.sorted_y.length → v ≤ yval c r) := by
  have hmono := mono_of_adjacent (yval c) c.sorted_y.length
    (fun r hr => hinv.mono_y r (by omega) hr)
  have hf : ∀ r, r < c.sorted_y.length →
      (fun i => F.pcmp (c.points.getD i default).y (some v))
        (c.sorted_y.getD r default) = some (F.qcmp (yval c r) v) := by
    intro r hr
    show F.pcmp (c.points.getD (c.sorted_y.getD r 0) default).y (some v) = _
    rw [finite_y_of c hinv hfin r hr]
    rfl
  rcases bsFuel_spec c.sorted_y
      (fun i => F.pcmp (c.points.getD i default).y (some v)) (yval c) v hf hmono
      (c.sorted_y.length + 1) 0 c.sorted_y.length (Nat.zero_le _) le_rfl
      (by omega) (fun r hr => absurd hr (by omega))
      (fun r hr hrlen => absurd (lt_of_le_of_lt hr hrlen) (lt_irrefl _)) with
    ⟨i, hbs, hilen, hkey⟩ | ⟨i, hbs, hile, hlo2, hhi2⟩
  · refine ⟨i + 1, find_y_eq_inl c (some v) i hs hbs, by omega, ?_, ?_⟩
    · intro r hr
      calc yval c r ≤ yval c i := hmono r i (by omega) hilen
        _ = v := hkey
    · intro r hr hrlen
      calc v = yval c i := hkey.symm
        _ ≤ yval c r := hmono i r (by omega) hrlen
  · exact ⟨i, find_y_eq_inr c (some v) i hs hbs, hile,
      fun r hr => le_of_lt (hlo2 r hr),
      fun r hr hrlen => le_of_lt (hhi2 r hr hrlen)⟩

theorem window_mono {len j1 j2 : ℕ} {key : ℕ → ℚ} {v1 v2 : ℚ} (hv : v1 < v2)
    (hj1 : j1 ≤ len) (h1 : ∀ r, r < j1 → key r ≤ v1)
    (h2 : ∀ r, j2 ≤ r → r < len → v2 ≤ key r) : j1 ≤ j2 := by
  by_contra hc
  push_neg at hc
  have h3 := h1 j2 hc
  have h4 := h2 j2 le_rfl (lt_of_lt_of_le hc hj1)
  linarith

theorem MAX_DISTANCE_pos : (0 : ℚ) < MAX_DISTANCE := by
  rw [MAX_DISTANCE, Rat.mkRat_eq_div]
  norm_num

theorem qsub_lt_qadd (a : ℚ) : qsub a MAX_DISTANCE < qadd a MAX_DISTANCE := by
  rw [qsub_eq, qadd_eq]
  linarith [MAX_DISTANCE_pos]

theorem sample1_invariants : Invariants sample1 :=
  ⟨by decide, by decide, by decide, by decide, by decide, by decide,
    by decide, by decide, by decide, by decide, by decide, by decide⟩

theorem sample1_allfinite : AllFinite sample1 := by
  unfold AllFinite
  decide

/-- C10: under the invariants, with a finite query point, all four
insertion-rank searches of `test_world_point` succeed and each upper
window edge is at least the corresponding lower edge, so the `usize`
width subtractions cannot underflow. -/
theorem C10_candidate_windows_monotone (c : PointCloud2D) (qx qy : ℚ)
    (hs : c.is_sorted = true) (hinv : Invariants c) (hfin : AllFinite c) :
    ∃ jlo jhi klo khi,
      c.find_point_position_x (F.sub (some qx) (some MAX_DISTANCE)) =
        some (Except.ok jlo) ∧
      c.find_point_position_x (F.add (some qx) (some MAX_DISTANCE)) =
        some (Except.ok jhi) ∧
      c.find_point_position_y (F.sub (some qy) (some MAX_DISTANCE)) =
        some (Except.ok klo) ∧
      c.find_point_position_y (F.add (some qy) (some MAX_DISTANCE)) =
        some (Except.ok khi) ∧
      jlo ≤ jhi ∧ klo ≤ khi := by
  obtain ⟨jlo, h1, h1b, h1lo, h1hi⟩ :=
    find_x_spec c (qsub qx MAX_DISTANCE) hs hinv hfin
  obtain ⟨jhi, h2, h2b, h2lo, h2hi⟩ :=
    find_x_spec c (qadd qx MAX_DISTANCE) hs hinv hfin
  obtain ⟨klo, h3, h3b, h3lo, h3hi⟩ :=
    find_y_spec c (qsub qy MAX_DISTANCE) hs hinv hfin
  obtain ⟨khi, h4, h4b, h4lo, h4hi⟩ :=
    find_y_spec c (qadd qy MAX_DISTANCE) hs hinv hfin
  exact ⟨jlo, jhi, klo, khi, h1, h2, h3, h4,
    window_mono (qsub_lt_qadd qx) h1b h1lo h2hi,
    window_mono (qsub_lt_qadd qy) h3b h3lo h4hi⟩

theorem C10_candidate_windows_monotone_witness :
    ∃ jlo jhi klo khi,
      sample1.find_point_position_x (F.sub (some 0) (some MAX_DISTANCE)) =
        some (Except.ok jlo) ∧
      sample1.find_point_position_x (F.add (some 0) (some MAX_DISTANCE)) =
        some (Except.ok jhi) ∧
      sample1.find_point_position_y (F.sub (some 0) (some MAX_DISTANCE)) =
        some (Except.ok klo) ∧
      sample1.find_point_position_y (F.add (some 0) (some MAX_DISTANCE)) =
        some (Except.ok khi) ∧
      jlo ≤ jhi ∧ klo ≤ khi :=
  C10_candidate_windows_monotone sample1 0 0 rfl sample1_invariants
    sample1_allfinite

/-- C3 (counterexample): on three coincident points at the origin the
search for x value 0 returns rank 2, although the last stored element
whose x value equals 0 sits at rank 2 (the upper bound would be 3): the
returned rank does not follow all equal elements. -/
theorem C3_duplicate_values_cex :
    sampleEq3.find_point_position_x (some 0) = some (Except.ok 2) ∧
    xval sampleEq3 2 = 0 ∧ sampleEq3.sorted_x.length = 3 ∧
    Invariants sampleEq3 :=
  ⟨rfl, by decide, by decide,
    ⟨by decide, by decide, by decide, by decide, by decide, by decide,
      by decide, by decide, by decide, by decide, by decide, by decide⟩⟩

theorem find_x_unique_upper (c : PointCloud2D) (v : ℚ) (t : ℕ)
    (hs : c.is_sorted = true) (hinv : Invariants c) (hfin : AllFinite c)
    (ht : t < c.sorted_x.length) (htv : xval c t = v)
    (huniq : ∀ r, r < c.sorted_x.length → xval c r = v → r = t) :
    c.find_point_position_x (some v) = some (Except.ok (t + 1)) := by
  have hmono := mono_of_adjacent (xval c) c.sorted_x.length
    (fun r hr => hinv.mono_x r (by omega) hr)
  have hf : ∀ r, r < c.sorted_x.length →
      (fun i => F.pcmp (c.points.getD i default).x (some v))
        (c.sorted_x.getD r default) = some (F.qcmp (xval c r) v) := by
    intro r hr
    show F.pcmp (c.points.getD (c.sorted_x.getD r 0) default).x (some v) = _
    rw [finite_x_of c hinv hfin r hr]
    rfl
  rcases bsFuel_spec c.sorted_x
      (fun i => F.pcmp (c.points.getD i default).x (some v)) (xval c) v hf hmono
      (c.sorted_x.length + 1) 0 c.sorted_x.length (Nat.zero_le _) le_rfl
      (by omega) (fun r hr => absurd hr (by omega))
      (fun r hr hrlen => absurd (lt_of_le_of_lt hr hrlen) (lt_irrefl _)) with
    ⟨i, hbs, hilen, hkey⟩ | ⟨i, hbs, hile, hlo2, hhi2⟩
  · have hit : i = t := huniq i hilen hkey
    exact find_x_eq_inl c (some v) t hs (hit ▸ hbs)
  · exfalso
    rcases lt_or_ge t i with hti | hti
    · exact absurd htv (ne_of_lt (hlo2 t hti))
    · exact absurd htv.symm (ne_of_lt (hhi2 t hti ht))

theorem find_y_unique_upper (c : PointCloud2D) (v : ℚ) (t : ℕ)
    (hs : c.is_sorted = true) (hinv : Invariants c) (hfin : AllFinite c)
    (ht : t < c.sorted_y.length) (htv : yval c t = v)
    (huniq : ∀ r, r < c.sorted_y.length → yval c r = v → r = t) :
    c.find_point_position_y (some v) = some (Except.ok (t + 1)) := by
  have hmono := mono_of_adjacent (yval c) c.sorted_y.length
    (fun r hr => hinv.mono_y r (by omega) hr)
  have hf : ∀ r, r < c.sorted_y.length →
      (fun i => F.pcmp (c.points.getD i default).y (some v))
        (c.sorted_y.getD r default) = some (F.qcmp (yval c r) v) := by
    intro r hr
    show F.pcmp (c.points.getD (c.sorted_y.getD r 0) default).y (some v) = _
    rw [finite_y_of c hinv hfin r hr]
    rfl
  rcases bsFuel_spec c.sorted_y
      (fun i => F.pcmp (c.points.getD i default).y (some v)) (yval c) v hf hmono
      (c.sorted_y.length + 1) 0 c.sorted_y.length (Nat.zero_le _) le_rfl
      (by omega) (fun r hr => absurd hr (by omega))
      (fun r hr hrlen => absurd (lt_of_le_of_lt hr hrlen) (lt_irrefl _)) with
    ⟨i, hbs, hilen, hkey⟩ | ⟨i, hbs, hile, hlo2, hhi2⟩
  · have hit : i = t := huniq i hilen hkey
    exact find_y_eq_inl c (some v) t hs (hit ▸ hbs)
  · exfalso
    rcases lt_or_ge t i with hti | hti
    · exact absurd htv (ne_of_lt (hlo2 t hti))
    · exact absurd htv.symm (ne_of_lt (hhi2 t hti ht))

/-- C3 (amended): when exactly one stored element has the searched axis
value, `find_point_position_x`/`_y` return the rank immediately after it
(upper bound); with several equal elements the search instead returns the
rank after the probed matching element, which may precede other equals.
The single-point boundary facts (queries -1, 0, 1 giving 0, 1, 1) hold. -/
theorem C3_amended_unique_match_upper_bound (c : PointCloud2D)
    (v w : ℚ) (tx ty : ℕ)
    (hs : c.is_sorted = true) (hinv : Invariants c) (hfin : AllFinite c)
    (htx : tx < c.sorted_x.length) (htxv : xval c tx = v)
    (hux : ∀ r, r < c.sorted_x.length → xval c r = v → r = tx)
    (hty : ty < c.sorted_y.length) (htyv : yval c ty = w)
    (huy : ∀ r, r < c.sorted_y.length → yval c r = w → r = ty) :
    c.find_point_position_x (some v) = some (Except.ok (tx + 1)) ∧
    c.find_point_position_y (some w) = some (Except.ok (ty + 1)) :=
  ⟨find_x_unique_upper c v tx hs hinv hfin htx htxv hux,
    find_y_unique_upper c w ty hs hinv hfin hty htyv huy⟩

theorem C3_amended_unique_match_upper_bound_witness :
    (sample1.find_point_position_x (some 0) = some (Except.ok 1) ∧
      sample1.find_point_position_y (some 0) = some (Except.ok 1)) ∧
    sample1.find_point_position_x (some (-1)) = some (Except.ok 0) ∧
    sample1.find_point_position_x (some 1) = some (Except.ok 1) :=
  ⟨C3_amended_unique_match_upper_bound sample1 0 0 0 0 rfl
      sample1_invariants sample1_allfinite (by decide) (by decide)
      (by decide) (by decide) (by decide) (by decide),
    rfl, rfl⟩

theorem sq_eval (c : PointCloud2D) (qx qy : ℚ) (i : ℕ)
    (hin : i < c.points.length) (hfin : AllFinite c) :
    Point2D.squared_distance_to ⟨some qx, some qy⟩ (c.points.getD i default) =
      some (sqQ c qx qy i) := by
  obtain ⟨hx, hy⟩ := hfin i hin
  cases hxe : (c.points.getD i default).x with
  | none => exact absurd hxe hx
  | some a =>
    cases hye : (c.points.getD i default).y with
    | none => exact absurd hye hy
    | some b =>
      unfold Point2D.squared_distance_to sqQ
      rw [hxe, hye]
      rfl

theorem getD_mem_exists {l : List ℕ} {a : ℕ} (h : a ∈ l) :
    ∃ r, r < l.length ∧ l.getD r 0 = a := by
  induction l with
  | nil => cases h
  | cons b bs ih =>
    rcases List.mem_cons.mp h with rfl | hbs
    · exact ⟨0, by simp, rfl⟩
    · obtain ⟨r, hr, hgd⟩ := ih hbs
      exact ⟨r + 1, by simpa using hr, hgd⟩

theorem rsq_le_of_axis {d e : ℚ}
    (h : MAX_DISTANCE ≤ d ∨ MAX_DISTANCE ≤ -d) :
    MAX_DISTANCE_SQ ≤ d * d + e * e := by
  have h0 := MAX_DISTANCE_pos
  rw [MAX_DISTANCE_SQ, qmul_eq]
  rcases h with h | h
  · have h1 : MAX_DISTANCE * MAX_DISTANCE ≤ d * d :=
      mul_le_mul h h (le_of_lt h0) (le_trans (le_of_lt h0) h)
    linarith [mul_self_nonneg e]
  · have h1 : MAX_DISTANCE * MAX_DISTANCE ≤ (-d) * (-d) :=
      mul_le_mul h h (le_of_lt h0) (le_trans (le_of_lt h0) h)
    have h2 : (-d) * (-d) = d * d := by ring
    linarith [mul_self_nonneg e]

theorem rsq_le_of_axis_y {d e : ℚ}
    (h : MAX_DISTANCE ≤ d ∨ MAX_DISTANCE ≤ -d) :
    MAX_DISTANCE_SQ ≤ e * e + d * d := by
  have h1 := rsq_le_of_axis (e := e) h
  linarith

theorem scanStep_preserves (c : PointCloud2D) (qx qy : ℚ)
    (hfin : AllFinite c) (S scanned : List ℕ) (acc : Option ℕ × F) (r : ℕ)
    (hr : S.getD r 0 < c.points.length)
    (hinv : ScanInv c qx qy S scanned acc) :
    ScanInv c qx qy S (scanned ++ [r])
      (scanStep c ⟨some qx, some qy⟩ S acc r) := by
  obtain ⟨m, hm, hmle, hnone, hsome⟩ := hinv
  simp only [scanStep]
  rw [sq_eval c qx qy (S.getD r 0) hr hfin, hm]
  show ScanInv c qx qy S (scanned ++ [r])
    (if decide (sqQ c qx qy (S.getD r 0) < m) = true
      then (some (S.getD r 0), some (sqQ c qx qy (S.getD r 0))) else acc)
  by_cases hsm : sqQ c qx qy (S.getD r 0) < m
  · rw [if_pos (by simpa using hsm)]
    refine ⟨sqQ c qx qy (S.getD r 0), rfl, le_of_lt (lt_of_lt_of_le hsm hmle),
      by simp, ?_⟩
    intro i hi
    rw [Option.some.injEq] at hi
    subst hi
    refine ⟨hr, rfl, lt_of_lt_of_le hsm hmle,
      ⟨r, by simp, rfl⟩, ?_⟩
    intro r2 hr2
    rcases List.mem_append.mp hr2 with hr2s | hr2r
    · cases hacc : acc.1 with
      | none =>
        obtain ⟨hmeq, hall⟩ := hnone hacc
        exact le_trans (le_of_lt (by rw [hmeq] at hsm; exact hsm))
          (hall r2 hr2s)
      | some j =>
        obtain ⟨_, _, _, _, hall⟩ := hsome j hacc
        exact le_trans (le_of_lt hsm) (hall r2 hr2s)
    · have : r2 = r := by simpa using hr2r
      subst this
      exact le_rfl
  · rw [if_neg (by simpa using hsm)]
    push_neg at hsm
    refine ⟨m, hm, hmle, ?_, ?_⟩
    · intro hacc
      obtain ⟨hmeq, hall⟩ := hnone hacc
      refine ⟨hmeq, ?_⟩
      intro r2 hr2
      rcases List.mem_append.mp hr2 with hr2s | hr2r
      · exact hall r2 hr2s
      · have : r2 = r := by simpa using hr2r
        subst this
        rw [← hmeq]
        exact hsm
    · intro i hacc
      obtain ⟨h1, h2, h3, h4, hall⟩ := hsome i hacc
      refine ⟨h1, h2, h3, ?_, ?_⟩
      · obtain ⟨r2, hr2, hgd⟩ := h4
        exact ⟨r2, List.mem_append.mpr (Or.inl hr2), hgd⟩
      · intro r2 hr2
        rcases List.mem_append.mp hr2 with hr2s | hr2r
        · exact hall r2 hr2s
        · have : r2 = r := by simpa using hr2r
          subst this
          exact hsm

theorem scan_fold (c : PointCloud2D) (qx qy : ℚ) (hfin : AllFinite c)
    (S : List ℕ) :
    ∀ ranks scanned acc,
      (∀ r ∈ ranks, S.getD r 0 < c.points.length) →
      ScanInv c qx qy S scanned acc →
      ScanInv c qx qy S (scanned ++ ranks)
        (ranks.foldl (scanStep c ⟨some qx, some qy⟩ S) acc) := by
  intro ranks
  induction ranks with
  | nil =>
    intro scanned acc _ hinv
    simpa using hinv
  | cons r rs ih =>
    intro scanned acc hrk hinv
    have h1 := scanStep_preserves c qx qy hfin S scanned acc r
      (hrk r (List.mem_cons_self r rs)) hinv
    have h2 := ih (scanned ++ [r])
      (scanStep c ⟨some qx, some qy⟩ S acc r)
      (fun r2 hr2 => hrk r2 (List.mem_cons_of_mem r hr2)) h1
    rw [List.foldl_cons]
    have heq : scanned ++ [r] ++ rs = scanned ++ r :: rs := by
      rw [List.append_assoc]
      rfl
    rw [← heq]
    exact h2

/-- Correctness of the candidate scan over the window `[lo, hi)` of the
sort order `S`: given that all out-of-window ranks hold points at least
the radius away, a `none` result means no stored point is strictly within
the radius, and a `some i` result is a stored point strictly within the
radius at minimal squared distance. -/
theorem scan_correct (c : PointCloud2D) (qx qy : ℚ) (hfin : AllFinite c)
    (S : List ℕ) (lo hi : ℕ) (hlohi : lo ≤ hi) (hhiS : hi ≤ S.length)
    (hrange : ∀ r, r < S.length → S.getD r 0 < c.points.length)
    (hsurj : ∀ i, i < c.points.length → ∃ r, r < S.length ∧ S.getD r 0 = i)
    (hout : ∀ r, r < S.length → r < lo ∨ hi ≤ r →
      MAX_DISTANCE_SQ ≤ sqQ c qx qy (S.getD r 0)) :
    (((List.range' lo (hi - lo)).foldl (scanStep c ⟨some qx, some qy⟩ S)
        ((none : Option ℕ), some MAX_DISTANCE_SQ)).1 = none →
      ∀ i, i < c.points.length → ¬ (sqQ c qx qy i < MAX_DISTANCE_SQ)) ∧
    (∀ i, ((List.range' lo (hi - lo)).foldl (scanStep c ⟨some qx, some qy⟩ S)
        ((none : Option ℕ), some MAX_DISTANCE_SQ)).1 = some i →
      i < c.points.length ∧ sqQ c qx qy i < MAX_DISTANCE_SQ ∧
        ∀ j, j < c.points.length → sqQ c qx qy i ≤ sqQ c qx qy j) := by
  have hmemr : ∀ r, r ∈ List.range' lo (hi - lo) ↔ lo ≤ r ∧ r < hi := by
    intro r
    rw [List.mem_range'_1]
    omega
  have hinit : ScanInv c qx qy S []
      ((none : Option ℕ), some MAX_DISTANCE_SQ) :=
    ⟨MAX_DISTANCE_SQ, rfl, le_rfl,
      fun _ => ⟨rfl, fun r hr => absurd hr (List.not_mem_nil r)⟩,
      fun i hi2 => Option.noConfusion hi2⟩
  have hfold := scan_fold c qx qy hfin S (List.range' lo (hi - lo)) []
    ((none : Option ℕ), some MAX_DISTANCE_SQ)
    (fun r hr => hrange r (lt_of_lt_of_le ((hmemr r).mp hr).2 hhiS)) hinit
  rw [List.nil_append] at hfold
  obtain ⟨m, hm, hmle, hnone, hsome⟩ := hfold
  constructor
  · intro hres i hi2
    obtain ⟨hmeq, hall⟩ := hnone hres
    obtain ⟨r, hrS, hgd⟩ := hsurj i hi2
    rcases lt_or_ge r lo with hcase | hcase
    · have := hout r hrS (Or.inl hcase)
      rw [hgd] at this
      exact not_lt.mpr this
    · rcases lt_or_ge r hi with hcase2 | hcase2
      · have := hall r ((hmemr r).mpr ⟨hcase, hcase2⟩)
        rw [hgd] at this
        exact not_lt.mpr this
      · have := hout r hrS (Or.inr hcase2)
        rw [hgd] at this
        exact not_lt.mpr this
  · intro i hres
    obtain ⟨h1, h2, h3, _, hall⟩ := hsome i hres
    refine ⟨h1, by rw [h2]; exact h3, ?_⟩
    intro j hj
    obtain ⟨r, hrS, hgd⟩ := hsurj j hj
    rcases lt_or_ge r lo with hcase | hcase
    · have := hout r hrS (Or.inl hcase)
      rw [hgd] at this
      rw [h2]
      exact le_trans (le_of_lt h3) this
    · rcases lt_or_ge r hi with hcase2 | hcase2
      · have := hall r ((hmemr r).mpr ⟨hcase, hcase2⟩)
        rw [hgd] at this
        rw [h2]
        exact this
      · have := hout r hrS (Or.inr hcase2)
        rw [hgd] at this
        rw [h2]
        exact le_trans (le_of_lt h3) this

/-- C2: under the invariants, with finite coordinates, `test_world_point`
does not panic; it returns `none` exactly when no stored point lies
strictly within `MAX_DISTANCE` of the query, and otherwise the stable
index of a stored point strictly within the radius whose squared distance
is minimal over all stored points (first-encountered on ties, via the
strict comparison). -/
theorem C2_test_world_point_correct (c : PointCloud2D) (qx qy : ℚ)
    (hs : c.is_sorted = true) (hinv : Invariants c) (hfin : AllFinite c) :
    ∃ res, c.test_world_point ⟨some qx, some qy⟩ = some res ∧
      ((res = none ∧ ∀ i, i < c.points.length →
          ¬ (sqQ c qx qy i < MAX_DISTANCE_SQ)) ∨
        (∃ i, res = some i ∧ i < c.points.length ∧
          sqQ c qx qy i < MAX_DISTANCE_SQ ∧
          ∀ j, j < c.points.length → sqQ c qx qy i ≤ sqQ c qx qy j)) := by
  obtain ⟨jlo, h1, h1b, h1lo, h1hi⟩ :=
    find_x_spec c (qsub qx MAX_DISTANCE) hs hinv hfin
  obtain ⟨jhi, h2, h2b, h2lo, h2hi⟩ :=
    find_x_spec c (qadd qx MAX_DISTANCE) hs hinv hfin
  obtain ⟨klo, h3, h3b, h3lo, h3hi⟩ :=
    find_y_spec c (qsub qy MAX_DISTANCE) hs hinv hfin
  obtain ⟨khi, h4, h4b, h4lo, h4hi⟩ :=
    find_y_spec c (qadd qy MAX_DISTANCE) hs hinv hfin
  simp only [PointCloud2D.test_world_point, F.sub, F.add, F.mul, h1, h2, h3, h4]
  rw [show qmul MAX_DISTANCE MAX_DISTANCE = MAX_DISTANCE_SQ from rfl]
  by_cases hd : jhi - jlo ≤ khi - klo
  · simp only [if_pos hd]
    refine ⟨_, rfl, ?_⟩
    have hw := window_mono (qsub_lt_qadd qx) h1b h1lo h2hi
    have hsurjx : ∀ i, i < c.points.length →
        ∃ r, r < c.sorted_x.length ∧ c.sorted_x.getD r 0 = i :=
      fun i hi2 => getD_mem_exists (hinv.mem_sx i hi2)
    have houtx : ∀ r, r < c.sorted_x.length → r < jlo ∨ jhi ≤ r →
        MAX_DISTANCE_SQ ≤ sqQ c qx qy (c.sorted_x.getD r 0) := by
      intro r hrS hcase
      simp only [sqQ, qadd_eq, qmul_eq, qsub_eq]
      apply rsq_le_of_axis
      rcases hcase with hcase | hcase
      · left
        have hb := h1lo r hcase
        simp only [xval, qsub_eq] at hb
        linarith
      · right
        have hb := h2hi r hcase hrS
        simp only [xval, qadd_eq] at hb
        linarith
    have hc := scan_correct c qx qy hfin c.sorted_x jlo jhi hw h2b
      hinv.range_sx hsurjx houtx
    cases hres : ((List.range' jlo (jhi - jlo)).foldl
        (scanStep c ⟨some qx, some qy⟩ c.sorted_x)
        ((none : Option ℕ), some MAX_DISTANCE_SQ)).1 with
    | none => exact Or.inl ⟨rfl, hc.1 hres⟩
    | some i =>
      obtain ⟨hi1, hi2, hi3⟩ := hc.2 i hres
      exact Or.inr ⟨i, rfl, hi1, hi2, hi3⟩
  · simp only [if_neg hd]
    refine ⟨_, rfl, ?_⟩
    have hw := window_mono (qsub_lt_qadd qy) h3b h3lo h4hi
    have hsurjy : ∀ i, i < c.points.length →
        ∃ r, r < c.sorted_y.length ∧ c.sorted_y.getD r 0 = i :=
      fun i hi2 => getD_mem_exists (hinv.mem_sy i hi2)
    have houty : ∀ r, r < c.sorted_y.length → r < klo ∨ khi ≤ r →
        MAX_DISTANCE_SQ ≤ sqQ c qx qy (c.sorted_y.getD r 0) := by
      intro r hrS hcase
      simp only [sqQ, qadd_eq, qmul_eq, qsub_eq]
      apply rsq_le_of_axis_y
      rcases hcase with hcase | hcase
      · left
        have hb := h3lo r hcase
        simp only [yval, qsub_eq] at hb
        linarith
      · right
        have hb := h4hi r hcase hrS
        simp only [yval, qadd_eq] at hb
        linarith
    have hc := scan_correct c qx qy hfin c.sorted_y klo khi hw h4b
      hinv.range_sy hsurjy houty
    cases hres : ((List.range' klo (khi - klo)).foldl
        (scanStep c ⟨some qx, some qy⟩ c.sorted_y)
        ((none : Option ℕ), some MAX_DISTANCE_SQ)).1 with
    | none => exact Or.inl ⟨rfl, hc.1 hres⟩
    | some i =>
      obtain ⟨hi1, hi2, hi3⟩ := hc.2 i hres
      exact Or.inr ⟨i, rfl, hi1, hi2, hi3⟩

theorem C2_test_world_point_correct_witness :
    ∃ res, sample1.test_world_point ⟨some 0, some 0⟩ = some res ∧
      ((res = none ∧ ∀ i, i < sample1.points.length →
          ¬ (sqQ sample1 0 0 i < MAX_DISTANCE_SQ)) ∨
        (∃ i, res = some i ∧ i < sample1.points.length ∧
          sqQ sample1 0 0 i < MAX_DISTANCE_SQ ∧
          ∀ j, j < sample1.points.length →
            sqQ sample1 0 0 i ≤ sqQ sample1 0 0 j)) :=
  C2_test_world_point_correct sample1 0 0 rfl sample1_invariants
    sample1_allfinite
